import Mathlib

/-!
Verification development for the Secret Santa single-page application
(`src/src/App.tsx`).  The file shallowly embeds the data model, the
Supabase persistence wrapper `db`, and the handlers of `GameScreen` /
`AdminPanel`, and proves the documented properties of the draw/allocation
workflow against that embedding.

The remote participant table is modelled as a `List Participant`
snapshot; each Supabase call becomes a pure function on that list.
Randomness (`Math.random()`) is modelled by explicit oracle arguments:
an index-choice function for the Fisher–Yates shuffle steps and a finite
fair source of word-sized random draws for the comparator-driven entry
sort.
-/

/-- One row of the `participants` table (interface `Participant` in
`App.tsx`): store-assigned numeric `id`, display `name`, the two draw
flags and the nullable name snapshot `picked_who`. -/
structure Participant where
  id : Nat
  name : String
  has_drawn : Bool
  is_picked : Bool
  picked_who : Option String
deriving DecidableEq

/-- A partial field update, as passed to `supabase.update`: `none` means
the field is absent from the update object and keeps its stored value. -/
structure FieldUpdate where
  has_drawn : Option Bool := none
  is_picked : Option Bool := none
  picked_who : Option (Option String) := none
deriving DecidableEq

/-- Apply a partial update to one row: present fields overwrite, absent
fields persist.  The `id` and `name` are never part of an update. -/
def applyUpdate (u : FieldUpdate) (p : Participant) : Participant :=
  { p with
    has_drawn := u.has_drawn.getD p.has_drawn
    is_picked := u.is_picked.getD p.is_picked
    picked_who := u.picked_who.getD p.picked_who }

namespace db

/-- `db.getParticipants`: on a store error it logs and returns `[]`; on
success it returns `data || []`, so a `null` payload also becomes `[]`. -/
def getParticipants (result : Except String (Option (List Participant))) :
    List Participant :=
  match result with
  | Except.error _ => []
  | Except.ok none => []
  | Except.ok (some data) => data

/-- `db.addParticipant name`: inserts one row with server-assigned `id`
(passed here as an explicit argument) and defaults
`has_drawn = false, is_picked = false, picked_who = null`. -/
def addParticipant (id : Nat) (name : String) (store : List Participant) :
    List Participant :=
  store ++ [{ id := id, name := name, has_drawn := false, is_picked := false,
              picked_who := none }]

/-- `db.updateParticipant id updates`: `update(updates).eq('id', id)` —
every row whose id matches receives the partial update. -/
def updateParticipant (id : Nat) (u : FieldUpdate) (store : List Participant) :
    List Participant :=
  store.map (fun p => if p.id = id then applyUpdate u p else p)

/-- The row transformation of `db.resetGame`: the Supabase call filters
`.neq('id', 0)`, so a row whose id is `0` is left untouched while every
other row gets the three mutable fields set back to their defaults. -/
def resetRow (p : Participant) : Participant :=
  if p.id ≠ 0 then
    { p with has_drawn := false, is_picked := false, picked_who := none }
  else p

/-- `db.resetGame`: `update({has_drawn:false,is_picked:false,picked_who:null}).neq('id',0)`. -/
def resetGame (store : List Participant) : List Participant :=
  store.map resetRow

/-- `db.clearAll`: `delete().neq('id', 0)` — removes every row whose id
differs from `0`. -/
def clearAll (store : List Participant) : List Participant :=
  store.filter (fun p => p.id = 0)

end db

/-- The three values of `GameScreen`'s `view` state. -/
inductive View
  | login
  | draw
  | result
deriving DecidableEq

/-- The local state of one `GameScreen` session: the seven `useState`
hooks of the component. -/
structure Session where
  view : View
  currentUser : Option Participant
  availableCards : List Participant
  hasShuffled : Bool
  isShuffling : Bool
  selectedCard : Option Participant
  drawnTarget : Option Participant
deriving DecidableEq

/-- The initial session state of a freshly mounted `GameScreen`. -/
def initialSession : Session :=
  { view := View.login, currentUser := none, availableCards := [],
    hasShuffled := false, isShuffling := false, selectedCard := none,
    drawnTarget := none }

/-- The eligibility filter at session entry (`handleLogin`):
`participants.filter((p) => !p.is_picked && p.id !== user.id)`. -/
def eligiblePool (participants : List Participant) (user : Participant) :
    List Participant :=
  participants.filter (fun p => !p.is_picked && p.id != user.id)

/-- The sample space of `k` independent calls to `Math.random()`, each
returning one of `2 ^ b` equally likely machine values (for real
`Math.random`, `b = 53`). -/
abbrev RandomSource (b k : Nat) := Fin k → Fin (2 ^ b)

/-- A model of `Array.prototype.sort` driven by the random comparator
`() => Math.random() - 0.5`: a deterministic procedure that consumes at
most `k` random draws and reorders the list.  `SortModel` states the
single guarantee ECMAScript gives for an inconsistent comparator: the
output is a permutation of the input. -/
def SortModel (b k : Nat)
    (engine : RandomSource b k → List Participant → List Participant) : Prop :=
  ∀ x l, (engine x l).Perm l

/-- `handleLogin(user)`: stores the user, computes the eligible pool,
randomizes its order once via the comparator sort, clears the shuffle
and selection flags and moves to the `draw` view. -/
def handleLogin (b k : Nat)
    (engine : RandomSource b k → List Participant → List Participant)
    (x : RandomSource b k) (participants : List Participant)
    (user : Participant) (s : Session) : Session :=
  { s with
    currentUser := some user
    availableCards := engine x (eligiblePool participants user)
    hasShuffled := false
    isShuffling := false
    selectedCard := none
    view := View.draw }

/-- `handleCardClick(target)`: rejected before the first completed
shuffle and while a shuffle is running; otherwise records the clicked
card as the pending candidate. -/
def handleCardClick (target : Participant) (s : Session) : Session :=
  if !s.hasShuffled then s
  else if s.isShuffling then s
  else { s with selectedCard := some target }

/-- The update written to the chosen target row by `confirmPick`:
`{ is_picked: true }`. -/
def pickUpdate : FieldUpdate :=
  { is_picked := some true }

/-- The update written to the actor row by `confirmPick`:
`{ has_drawn: true, picked_who: targetName }`. -/
def drawnUpdate (targetName : String) : FieldUpdate :=
  { has_drawn := some true, picked_who := some (some targetName) }

/-- One issued store write: the row filter (`eq('id', rowId)`) and the
partial update. -/
structure WriteCall where
  rowId : Nat
  update : FieldUpdate
deriving DecidableEq

/-- `confirmPick`: guard `if (!selectedCard || !currentUser) return;`
then two awaited writes — target's `is_picked := true` first, then the
actor's `has_drawn := true, picked_who := target.name` — then
`setDrawnTarget`, `setView('result')`, `setSelectedCard(null)`.
Returns the ordered list of issued writes, the new session and the new
store. -/
def confirmPick (s : Session) (store : List Participant) :
    List WriteCall × Session × List Participant :=
  match s.selectedCard, s.currentUser with
  | some target, some user =>
      ([⟨target.id, pickUpdate⟩, ⟨user.id, drawnUpdate target.name⟩],
       { s with drawnTarget := some target, view := View.result,
                selectedCard := none },
       db.updateParticipant user.id (drawnUpdate target.name)
         (db.updateParticipant target.id pickUpdate store))
  | _, _ => ([], s, store)

/-- The set of code points the ECMAScript `String.prototype.trim`
removes: WhiteSpace (TAB VT FF SP NBSP ZWNBSP and Space_Separator) and
LineTerminator (LF CR LS PS). -/
def jsWhitespace (c : Char) : Bool :=
  [0x9, 0xA, 0xB, 0xC, 0xD, 0x20, 0xA0, 0x1680, 0x2000, 0x2001, 0x2002,
   0x2003, 0x2004, 0x2005, 0x2006, 0x2007, 0x2008, 0x2009, 0x200A, 0x2028,
   0x2029, 0x202F, 0x205F, 0x3000, 0xFEFF].contains c.toNat

/-- `newName.trim()`: strips leading and trailing JS whitespace. -/
def jsTrim (s : String) : String :=
  ⟨((s.data.dropWhile jsWhitespace).reverse.dropWhile jsWhitespace).reverse⟩

/-- `handleAdd`: `if (!newName.trim()) return;` — an empty trimmed name
(the only falsy string) aborts before any store call; otherwise
`db.addParticipant(newName.trim())` runs with the server-assigned id.
The first component is the list of insert calls issued (their names). -/
def handleAdd (serverId : Nat) (newName : String) (store : List Participant) :
    List String × List Participant :=
  if jsTrim newName = "" then ([], store)
  else ([jsTrim newName], db.addParticipant serverId (jsTrim newName) store)

/-- The login view of `GameScreen` shows the "No participants found."
card exactly when the fetched roster is empty. -/
def showsNoParticipantsMessage (participants : List Participant) : Bool :=
  participants.isEmpty

/-- The in-place swap `[newArr[i], newArr[j]] = [newArr[j], newArr[i]]`
of one Fisher–Yates iteration, on a list; out-of-range indices leave the
list unchanged (they never occur in the loop's range). -/
def listSwap (l : List Participant) (i j : Nat) : List Participant :=
  match l[i]?, l[j]? with
  | some a, some b => (l.set i b).set j a
  | _, _ => l

/-- The loop body of one shuffle step in `shuffleCards`:
`for (let i = newArr.length - 1; i > 0; i--)` swaps position `i` with
`j = Math.floor(Math.random() * (i + 1))`.  The oracle `r` supplies the
raw random draw for each index; `% (i + 1)` expresses that the drawn
`j` lies in `[0, i]`.  `fyAux r n` performs the iterations for indices
`n, n-1, …, 1`. -/
def fyAux (r : Nat → Nat) : Nat → List Participant → List Participant
  | 0, l => l
  | i + 1, l => fyAux r i (listSwap l (i + 1) (r (i + 1) % (i + 2)))

/-- One complete shuffle step: the whole Fisher–Yates pass that
`setAvailableCards` applies inside `runShuffleStep`. -/
def shuffleStep (r : Nat → Nat) (l : List Participant) : List Participant :=
  fyAux r (l.length - 1) l

/-- A sequence of consecutive shuffle steps (the timer chain performs
`maxShuffles = 8` of them), each with its own random oracle. -/
def shuffleRun (rs : List (Nat → Nat)) (l : List Participant) :
    List Participant :=
  rs.foldl (fun acc r => shuffleStep r acc) l

/-- `db.updateParticipant` with an explicit failure outcome for the
remote call: on error the server applies nothing, the wrapper logs to
the console and returns normally (its promise still resolves). -/
def updateParticipantF (fails : Bool) (id : Nat) (u : FieldUpdate)
    (store : List Participant) : List Participant :=
  if fails then store else db.updateParticipant id u store

/-- `confirmPick` with explicit failure outcomes for its two store
writes.  Because `db.updateParticipant` swallows errors, the handler
continues unconditionally: it sets `drawnTarget`, switches the view to
`result` and clears the selection whether or not the writes succeeded.
The first component records whether any failure was surfaced to the
caller — the code surfaces none. -/
def confirmPickF (f1 f2 : Bool) (s : Session) (store : List Participant) :
    Bool × Session × List Participant :=
  match s.selectedCard, s.currentUser with
  | some target, some user =>
      (false,
       { s with drawnTarget := some target, view := View.result,
                selectedCard := none },
       updateParticipantF f2 user.id (drawnUpdate target.name)
         (updateParticipantF f1 target.id pickUpdate store))
  | _, _ => (false, s, store)

/-- The store states reachable through the application's own mutating
operations, starting from an empty table: admin add, a session's
confirm (with arbitrary session state), admin reset and admin clear. -/
inductive ReachableStore : List Participant → Prop
  | empty : ReachableStore []
  | add (id : Nat) (name : String) {s : List Participant} :
      ReachableStore s → ReachableStore (db.addParticipant id name s)
  | confirm (sess : Session) {s : List Participant} :
      ReachableStore s → ReachableStore (confirmPick sess s).2.2
  | reset {s : List Participant} :
      ReachableStore s → ReachableStore (db.resetGame s)
  | clear {s : List Participant} :
      ReachableStore s → ReachableStore (db.clearAll s)

/-- Data-model invariant: a participant with `has_drawn = true` has a
non-null `picked_who`. -/
abbrev AllocInvariant (store : List Participant) : Prop :=
  ∀ p ∈ store, p.has_drawn = true → p.picked_who ≠ none

/-- The advertised postcondition of `resetAll`: every row back to the
three defaults. -/
abbrev ResetPostcondition (store : List Participant) : Prop :=
  ∀ p ∈ store, p.has_drawn = false ∧ p.is_picked = false ∧
    p.picked_who = none

/-- How many outcomes of the random source make the entry sort deliver
the ordering `l` as `availableCards`. -/
def entryCount (b k : Nat)
    (engine : RandomSource b k → List Participant → List Participant)
    (roster : List Participant) (user : Participant) (l : List Participant) :
    Nat :=
  (Finset.univ.filter (fun x : RandomSource b k =>
    (handleLogin b k engine x roster user initialSession).availableCards = l)).card

/-- Uniformity of the entry randomization on a given roster and actor:
every ordering of the eligible pool is produced by equally many outcomes
of the random source. -/
def UniformEntry (b k : Nat)
    (engine : RandomSource b k → List Participant → List Participant)
    (roster : List Participant) (user : Participant) : Prop :=
  ∀ l1 l2 : List Participant,
    l1.Perm (eligiblePool roster user) → l2.Perm (eligiblePool roster user) →
    entryCount b k engine roster user l1 = entryCount b k engine roster user l2

/-- Demo row: Alice, freshly added. -/
def alice : Participant :=
  { id := 1, name := "Alice", has_drawn := false, is_picked := false,
    picked_who := none }

/-- Demo row: Bob, freshly added. -/
def bob : Participant :=
  { id := 2, name := "Bob", has_drawn := false, is_picked := false,
    picked_who := none }

/-- Demo row: Carol, freshly added. -/
def carol : Participant :=
  { id := 3, name := "Carol", has_drawn := false, is_picked := false,
    picked_who := none }

/-- Demo row: Dave, freshly added. -/
def dave : Participant :=
  { id := 4, name := "Dave", has_drawn := false, is_picked := false,
    picked_who := none }

/-- Demo row: a participant already picked as someone's target. -/
def pickedBob : Participant :=
  { id := 2, name := "Bob", has_drawn := false, is_picked := true,
    picked_who := none }

/-- A four-person roster, nobody has drawn yet. -/
def demoRoster : List Participant := [alice, bob, carol, dave]

/-- A two-row store snapshot: Alice and Bob, nobody has drawn. -/
def demoStore : List Participant := [alice, bob]

/-- A session in the `Ready` state: Alice logged in, shuffle finished,
nothing selected yet. -/
def readySession : Session :=
  { view := View.draw, currentUser := some alice, availableCards := [bob],
    hasShuffled := true, isShuffling := false, selectedCard := none,
    drawnTarget := none }

/-- A session in the `Confirming` state: Alice logged in with Bob as the
pending candidate. -/
def confirmingSession : Session :=
  { readySession with selectedCard := some bob }

/-- The degenerate sort engine that consumes no randomness and keeps the
input order — one admissible instance of `SortModel`. -/
def identityEngine : RandomSource 0 0 → List Participant → List Participant :=
  fun _ l => l

/-- The empty random source for the zero-draw sample space. -/
def noRandomness : RandomSource 0 0 :=
  fun i => Fin.elim0 i

/-- A store containing a row with id `0` — the one id that the
`.neq('id', 0)` filters of `resetGame`/`clearAll` skip. -/
def idZeroStore : List Participant :=
  [{ id := 0, name := "Ghost", has_drawn := true, is_picked := true,
     picked_who := some "Alice" }]

/-- A store with completed draws on ordinary (nonzero) ids. -/
def demoDirtyStore : List Participant :=
  [{ alice with has_drawn := true, picked_who := some "Bob" },
   { bob with is_picked := true }]

/-- The store state reached from an empty table by adding Alice and Bob
and letting Alice confirm Bob. -/
def demoReachedStore : List Participant :=
  (confirmPick confirmingSession
    (db.addParticipant 2 "Bob" (db.addParticipant 1 "Alice" []))).2.2

/-! ### Helper lemmas -/

theorem applyUpdate_id (u : FieldUpdate) (p : Participant) :
    (applyUpdate u p).id = p.id := rfl

theorem updateParticipant_ids (i : Nat) (u : FieldUpdate)
    (store : List Participant) :
    (db.updateParticipant i u store).map Participant.id =
      store.map Participant.id := by
  rw [db.updateParticipant, List.map_map]
  have h : (Participant.id ∘ fun p => if p.id = i then applyUpdate u p else p) =
      Participant.id := by
    funext p
    by_cases hp : p.id = i <;> simp [hp, applyUpdate]
  rw [h]

theorem confirmPick_none (s : Session) (store : List Participant)
    (h : s.selectedCard = none ∨ s.currentUser = none) :
    confirmPick s store = ([], s, store) := by
  cases hsel : s.selectedCard with
  | none => simp [confirmPick, hsel]
  | some t =>
    cases hcur : s.currentUser with
    | none => simp [confirmPick, hsel, hcur]
    | some u =>
      rw [hsel, hcur] at h
      rcases h with h | h <;> simp at h

theorem confirmPick_some (s : Session) (store : List Participant)
    (target user : Participant) (hsel : s.selectedCard = some target)
    (hcur : s.currentUser = some user) :
    confirmPick s store =
      ([⟨target.id, pickUpdate⟩, ⟨user.id, drawnUpdate target.name⟩],
       { s with drawnTarget := some target, view := View.result,
                selectedCard := none },
       db.updateParticipant user.id (drawnUpdate target.name)
         (db.updateParticipant target.id pickUpdate store)) := by
  unfold confirmPick
  rw [hsel, hcur]

/-! ### Claim theorems -/

/-- C1.  The eligible pool computed at session entry (`handleLogin`) for
an actor who has not yet drawn is exactly the set of roster participants
other than the actor that are not yet picked — both as the filtered
`pool` and as the `availableCards` produced by the entry randomization. -/
theorem eligiblePool_spec :
    ∀ (roster : List Participant) (actor : Participant),
      actor.has_drawn = false →
      ∀ p : Participant,
        (p ∈ eligiblePool roster actor ↔
          p ∈ roster ∧ p.id ≠ actor.id ∧ p.is_picked = false) ∧
        (∀ (b k : Nat)
            (engine : RandomSource b k → List Participant → List Participant)
            (x : RandomSource b k) (s : Session), SortModel b k engine →
          (p ∈ (handleLogin b k engine x roster actor s).availableCards ↔
            p ∈ roster ∧ p.id ≠ actor.id ∧ p.is_picked = false)) := by
  intro roster actor _ p
  have h1 : p ∈ eligiblePool roster actor ↔
      p ∈ roster ∧ p.id ≠ actor.id ∧ p.is_picked = false := by
    simp only [eligiblePool, List.mem_filter, Bool.and_eq_true,
      Bool.not_eq_true', bne_iff_ne]
    tauto
  refine ⟨h1, fun b k engine x s hsort => ?_⟩
  have hperm : p ∈ engine x (eligiblePool roster actor) ↔
      p ∈ eligiblePool roster actor :=
    (hsort x (eligiblePool roster actor)).mem_iff
  exact hperm.trans h1

/-- C1 witness: on the concrete four-person roster with actor Alice,
Carol's membership in the pool matches the eligibility predicate. -/
theorem eligiblePool_spec_witness :
    carol ∈ eligiblePool demoRoster alice ↔
      carol ∈ demoRoster ∧ carol.id ≠ alice.id ∧ carol.is_picked = false :=
  (eligiblePool_spec demoRoster alice rfl carol).1

/-- C6.  `handleCardClick` is a no-op before the first completed shuffle
and while a shuffle is in progress; in the `Ready` state
(`hasShuffled ∧ ¬isShuffling`) it records exactly the pending
candidate. -/
theorem handleCardClick_guard :
    ∀ (s : Session) (t : Participant),
      (s.hasShuffled = false → handleCardClick t s = s) ∧
      (s.isShuffling = true → handleCardClick t s = s) ∧
      (s.hasShuffled = true → s.isShuffling = false →
        handleCardClick t s = { s with selectedCard := some t }) := by
  intro s t
  refine ⟨fun h => ?_, fun h => ?_, fun h1 h2 => ?_⟩
  · simp [handleCardClick, h]
  · simp [handleCardClick, h]
  · simp [handleCardClick, h1, h2]

/-- C6 witness: in the concrete `Ready` session, clicking Bob records
Bob as the pending candidate. -/
theorem handleCardClick_guard_witness :
    handleCardClick bob readySession =
      { readySession with selectedCard := some bob } :=
  (handleCardClick_guard readySession bob).2.2 rfl rfl

/-- C9.  `handleAdd` rejects empty and whitespace-only names locally:
no insert call is issued and the store is unchanged. -/
theorem handleAdd_rejects_blank :
    ∀ (serverId : Nat) (name : String) (store : List Participant),
      name.data.all jsWhitespace = true →
      handleAdd serverId name store = ([], store) := by
  intro serverId name store h
  have hnil : name.data.dropWhile jsWhitespace = [] :=
    List.dropWhile_eq_nil_iff.mpr (fun x hx => List.all_eq_true.mp h x hx)
  have htrim : jsTrim name = "" := by
    rw [jsTrim, hnil]
    decide
  simp [handleAdd, htrim]

/-- C9 witness: a whitespace-only name (two spaces and a tab) makes no
insert call and leaves the store as it was. -/
theorem handleAdd_rejects_blank_witness :
    handleAdd 7 "  \t" demoStore = ([], demoStore) :=
  handleAdd_rejects_blank 7 "  \t" demoStore (by decide)

/-- C10.  A failed `list` call makes `db.getParticipants` return `[]`,
indistinguishable from an empty roster, so the login screen shows the
no-participants message rather than an error. -/
theorem getParticipants_error_is_empty :
    ∀ msg : String,
      db.getParticipants (Except.error msg) = [] ∧
      db.getParticipants (Except.error msg) =
        db.getParticipants (Except.ok (some [])) ∧
      showsNoParticipantsMessage (db.getParticipants (Except.error msg)) =
        true :=
  fun _ => ⟨rfl, rfl, rfl⟩

/-- C3 (code behavior at the failing input).  With a pending candidate
and a logged-in actor, when both commit writes fail the handler still
transitions the session to the `result` view, leaves the store
unchanged and surfaces no failure: `db.updateParticipant` swallows the
error and `confirmPick` continues unconditionally. -/
theorem confirmPick_failure_still_shows_result :
    (confirmPickF true true confirmingSession demoStore).2.1.view =
        View.result ∧
      (confirmPickF true true confirmingSession demoStore).2.2 = demoStore ∧
      (confirmPickF true true confirmingSession demoStore).1 = false :=
  ⟨rfl, rfl, rfl⟩

/-- C8 counterexample: a store holding a row with id `0` is left
entirely untouched by `resetGame` (`.neq('id', 0)`), so the advertised
"every row" postcondition fails on it. -/
theorem resetGame_skips_id_zero :
    db.resetGame idZeroStore = idZeroStore ∧
      ¬ ResetPostcondition (db.resetGame idZeroStore) := by
  decide

/-- C8 amended.  `resetGame` is idempotent, and on every store in which
no row has id `0` (store-assigned ids are positive) a single call sets
the three mutable fields of every row back to their defaults. -/
theorem resetGame_idempotent :
    ∀ store : List Participant,
      db.resetGame (db.resetGame store) = db.resetGame store ∧
      ((∀ p ∈ store, p.id ≠ 0) → ResetPostcondition (db.resetGame store)) := by
  intro store
  have hcomp : ∀ p, db.resetRow (db.resetRow p) = db.resetRow p := by
    intro p
    by_cases hp : p.id = 0
    · simp [db.resetRow, hp]
    · simp [db.resetRow, hp]
  constructor
  · rw [db.resetGame, db.resetGame, List.map_map]
    have h : db.resetRow ∘ db.resetRow = db.resetRow := funext fun p => hcomp p
    rw [h]
  · intro h p hp
    rw [db.resetGame] at hp
    obtain ⟨q, hq, rfl⟩ := List.mem_map.mp hp
    have hq0 := h q hq
    simp [db.resetRow, hq0]

/-- C8 witness: on the concrete store with completed draws, double reset
equals single reset and the postcondition holds after one reset. -/
theorem resetGame_idempotent_witness :
    db.resetGame (db.resetGame demoDirtyStore) = db.resetGame demoDirtyStore ∧
      ResetPostcondition (db.resetGame demoDirtyStore) :=
  ⟨(resetGame_idempotent demoDirtyStore).1,
   (resetGame_idempotent demoDirtyStore).2 (by decide)⟩

theorem cons_set_perm :
    ∀ (l : List Participant) (k : Nat) (a b : Participant),
      l[k]? = some b → (b :: l.set k a).Perm (a :: l) := by
  intro l
  induction l with
  | nil => intro k a b h; simp at h
  | cons x xs ih =>
    intro k a b h
    cases k with
    | zero =>
      simp only [List.getElem?_cons_zero, Option.some.injEq] at h
      rw [← h]
      exact List.Perm.swap a x xs
    | succ m =>
      simp only [List.getElem?_cons_succ] at h
      show (b :: x :: xs.set m a).Perm (a :: x :: xs)
      have h1 : (b :: x :: xs.set m a).Perm (x :: b :: xs.set m a) :=
        List.Perm.swap x b (xs.set m a)
      have h2 : (x :: b :: xs.set m a).Perm (x :: a :: xs) :=
        (ih m a b h).cons x
      have h3 : (x :: a :: xs).Perm (a :: x :: xs) := List.Perm.swap a x xs
      exact (h1.trans h2).trans h3

theorem set_set_perm :
    ∀ (l : List Participant) (i j : Nat) (a b : Participant),
      l[i]? = some a → l[j]? = some b → ((l.set i b).set j a).Perm l := by
  intro l
  induction l with
  | nil => intro i j a b hi _; simp at hi
  | cons x xs ih =>
    intro i j a b hi hj
    cases i with
    | zero =>
      simp only [List.getElem?_cons_zero, Option.some.injEq] at hi
      cases j with
      | zero =>
        simp only [List.getElem?_cons_zero, Option.some.injEq] at hj
        show (a :: xs).Perm (x :: xs)
        rw [← hi]
      | succ m =>
        simp only [List.getElem?_cons_succ] at hj
        show (b :: xs.set m a).Perm (x :: xs)
        rw [← hi]
        exact cons_set_perm xs m x b hj
    | succ n =>
      simp only [List.getElem?_cons_succ] at hi
      cases j with
      | zero =>
        simp only [List.getElem?_cons_zero, Option.some.injEq] at hj
        show (a :: xs.set n b).Perm (x :: xs)
        rw [← hj]
        exact cons_set_perm xs n x a hi
      | succ m =>
        simp only [List.getElem?_cons_succ] at hj
        show (x :: (xs.set n b).set m a).Perm (x :: xs)
        exact (ih n m a b hi hj).cons x

theorem listSwap_perm (l : List Participant) (i j : Nat) :
    (listSwap l i j).Perm l := by
  cases hi : l[i]? with
  | none => simp [listSwap, hi]
  | some a =>
    cases hj : l[j]? with
    | none => simp [listSwap, hi, hj]
    | some b =>
      have h : listSwap l i j = (l.set i b).set j a := by
        simp [listSwap, hi, hj]
      rw [h]
      exact set_set_perm l i j a b hi hj

theorem fyAux_perm (r : Nat → Nat) :
    ∀ (n : Nat) (l : List Participant), (fyAux r n l).Perm l := by
  intro n
  induction n with
  | zero => intro l; exact List.Perm.refl l
  | succ i ih =>
    intro l
    exact (ih _).trans (listSwap_perm l (i + 1) (r (i + 1) % (i + 2)))

theorem shuffleStep_perm (r : Nat → Nat) (l : List Participant) :
    (shuffleStep r l).Perm l :=
  fyAux_perm r (l.length - 1) l

theorem shuffleRun_perm :
    ∀ (rs : List (Nat → Nat)) (l : List Participant),
      (shuffleRun rs l).Perm l := by
  intro rs
  induction rs with
  | nil => intro l; exact List.Perm.refl l
  | cons r rest ih =>
    intro l
    show (shuffleRun rest (shuffleStep r l)).Perm l
    exact (ih (shuffleStep r l)).trans (shuffleStep_perm r l)

/-- C5.  Every Fisher–Yates shuffle step — and hence every sequence of
consecutive steps — is a permutation of `availableCards`: the length and
the set of participant ids are unchanged; only the order varies. -/
theorem shuffle_preserves_pool :
    ∀ (r : Nat → Nat) (rs : List (Nat → Nat)) (l : List Participant),
      (shuffleStep r l).Perm l ∧
      (shuffleRun rs l).Perm l ∧
      (shuffleRun rs l).length = l.length ∧
      ∀ i : Nat,
        i ∈ (shuffleRun rs l).map Participant.id ↔
          i ∈ l.map Participant.id := by
  intro r rs l
  refine ⟨shuffleStep_perm r l, shuffleRun_perm rs l,
    (shuffleRun_perm rs l).length_eq, fun i => ?_⟩
  exact ((shuffleRun_perm rs l).map Participant.id).mem_iff

/-- C2.  `confirmPick` is a no-op issuing no writes unless a candidate
is pending and an actor is logged in; with pending target `t` and actor
`a` it issues exactly the two writes, in order — `t.is_picked := true`
first, then `a.has_drawn := true, a.picked_who := t.name` — and both
paired updates are observed on the resulting store (ids preserved,
every row with the target's id marked picked, every row with the
actor's id marked drawn with the target's name recorded). -/
theorem confirmPick_spec :
    ∀ (s : Session) (store : List Participant),
      ((s.selectedCard = none ∨ s.currentUser = none) →
        confirmPick s store = ([], s, store)) ∧
      (∀ target user : Participant, s.selectedCard = some target →
        s.currentUser = some user →
        (confirmPick s store).1 =
          [⟨target.id, pickUpdate⟩, ⟨user.id, drawnUpdate target.name⟩] ∧
        (confirmPick s store).2.2.map Participant.id =
          store.map Participant.id ∧
        ∀ p ∈ (confirmPick s store).2.2,
          (p.id = target.id → p.is_picked = true) ∧
          (p.id = user.id →
            p.has_drawn = true ∧ p.picked_who = some target.name)) := by
  intro s store
  refine ⟨confirmPick_none s store, fun target user hsel hcur => ?_⟩
  rw [confirmPick_some s store target user hsel hcur]
  refine ⟨rfl, ?_, ?_⟩
  · rw [updateParticipant_ids, updateParticipant_ids]
  · intro p hp
    simp only [db.updateParticipant, List.map_map, List.mem_map,
      Function.comp] at hp
    obtain ⟨q, _, rfl⟩ := hp
    by_cases h1 : q.id = target.id
    · by_cases h2 : q.id = user.id
      · simp [h1, h2, h1.symm.trans h2, applyUpdate, pickUpdate, drawnUpdate]
      · have h3 : ¬(target.id = user.id) := fun hh => h2 (h1.trans hh)
        simp [h1, h2, h3, applyUpdate, pickUpdate, drawnUpdate]
    · by_cases h2 : q.id = user.id
      · have h3 : ¬(user.id = target.id) := fun hh => h1 (h2.trans hh)
        simp [h1, h2, h3, applyUpdate, pickUpdate, drawnUpdate]
      · simp [h1, h2, applyUpdate, pickUpdate, drawnUpdate]

/-- C2 witness: in the concrete confirming session (Alice with pending
candidate Bob) the two writes are issued in order. -/
theorem confirmPick_spec_witness :
    (confirmPick confirmingSession demoStore).1 =
      [⟨bob.id, pickUpdate⟩, ⟨alice.id, drawnUpdate bob.name⟩] :=
  ((confirmPick_spec confirmingSession demoStore).2 bob alice rfl rfl).1

/-- C4.  In every store state reachable through the application's own
operations, a participant with `has_drawn = true` has a non-null
`picked_who`. -/
theorem allocation_invariant_reachable :
    ∀ store : List Participant,
      ReachableStore store → AllocInvariant store := by
  intro store h
  induction h with
  | empty => intro p hp; simp at hp
  | add id name _ ih =>
    intro p hp
    rw [db.addParticipant] at hp
    rcases List.mem_append.mp hp with h1 | h1
    · exact ih p h1
    · simp only [List.mem_singleton] at h1
      subst h1
      intro hd
      simp at hd
  | confirm sess _ ih =>
    cases hsel : sess.selectedCard with
    | none =>
      rw [confirmPick_none sess _ (Or.inl hsel)]
      exact ih
    | some t =>
      cases hcur : sess.currentUser with
      | none =>
        rw [confirmPick_none sess _ (Or.inr hcur)]
        exact ih
      | some u =>
        rw [confirmPick_some sess _ t u hsel hcur]
        intro p hp
        simp only [db.updateParticipant, List.map_map, List.mem_map,
          Function.comp] at hp
        obtain ⟨q, hq, rfl⟩ := hp
        have hq' := ih q hq
        by_cases h1 : q.id = t.id
        · by_cases h2 : q.id = u.id
          · simp [h1, h2, h1.symm.trans h2, applyUpdate, pickUpdate,
              drawnUpdate]
          · have h3 : ¬(t.id = u.id) := fun hh => h2 (h1.trans hh)
            simp only [h1, h2, h3, applyUpdate, pickUpdate, drawnUpdate,
              if_true, if_false, ite_true, ite_false, if_neg, not_false_eq_true]
            intro hd
            exact hq' (by simpa using hd)
        · by_cases h2 : q.id = u.id
          · have h3 : ¬(u.id = t.id) := fun hh => h1 (h2.trans hh)
            simp [h1, h2, h3, applyUpdate, pickUpdate, drawnUpdate]
          · simp only [h1, h2, ite_false, if_neg, not_false_eq_true]
            exact hq'
  | reset _ ih =>
    intro p hp
    rw [db.resetGame] at hp
    obtain ⟨q, hq, rfl⟩ := List.mem_map.mp hp
    by_cases h : q.id = 0
    · simp only [db.resetRow, h, ne_eq, not_true_eq_false, if_neg,
        ite_false, not_false_eq_true]
      exact ih q hq
    · intro hd
      simp [db.resetRow, h] at hd
  | clear _ ih =>
    intro p hp
    exact ih p (List.mem_filter.mp hp).1

/-- C4 witness: the invariant holds on the concrete reachable store
where Alice has confirmed Bob. -/
theorem allocation_invariant_witness :
    ReachableStore demoReachedStore ∧ AllocInvariant demoReachedStore :=
  ⟨ReachableStore.confirm confirmingSession
      (ReachableStore.add 2 "Bob" (ReachableStore.add 1 "Alice"
        ReachableStore.empty)),
   allocation_invariant_reachable demoReachedStore
     (ReachableStore.confirm confirmingSession
       (ReachableStore.add 2 "Bob" (ReachableStore.add 1 "Alice"
         ReachableStore.empty)))⟩

/-- C7 counterexample.  On the concrete roster with actor Dave the
eligible pool has three elements, hence six orderings; no sort procedure
driven by finitely many power-of-two-uniform random draws — and
`pool.sort(() => Math.random() - 0.5)` is one, for any conforming
engine — can produce all six with equal probability, because every
ordering's outcome count would have to satisfy `6 * m = 2 ^ (b * k)`,
and `3` does not divide a power of `2`. -/
theorem entry_sort_not_uniform :
    ¬ ∃ (b k : Nat)
        (engine : RandomSource b k → List Participant → List Participant),
        SortModel b k engine ∧ UniformEntry b k engine demoRoster dave := by
  rintro ⟨b, k, engine, hsort, huni⟩
  have hmem : ∀ x : RandomSource b k,
      (handleLogin b k engine x demoRoster dave initialSession).availableCards
        ∈ (eligiblePool demoRoster dave).permutations.toFinset := by
    intro x
    rw [List.mem_toFinset, List.mem_permutations]
    exact hsort x (eligiblePool demoRoster dave)
  have hsum : ∑ l ∈ (eligiblePool demoRoster dave).permutations.toFinset,
      entryCount b k engine demoRoster dave l =
      Fintype.card (RandomSource b k) := by
    rw [← Finset.card_univ]
    exact (Finset.card_eq_sum_card_fiberwise (fun x _ => hmem x)).symm
  have hconst : ∀ l ∈ (eligiblePool demoRoster dave).permutations.toFinset,
      entryCount b k engine demoRoster dave l =
      entryCount b k engine demoRoster dave (eligiblePool demoRoster dave) := by
    intro l hl
    exact huni l (eligiblePool demoRoster dave)
      (List.mem_permutations.mp (List.mem_toFinset.mp hl))
      (List.Perm.refl (eligiblePool demoRoster dave))
  have htcard : ((eligiblePool demoRoster dave).permutations.toFinset).card = 6 := by
    have hnd : (eligiblePool demoRoster dave).Nodup := by decide
    rw [List.card_toFinset,
      (List.nodup_permutations (eligiblePool demoRoster dave) hnd).dedup,
      List.length_permutations]
    decide
  rw [Finset.sum_congr rfl hconst, Finset.sum_const, htcard, smul_eq_mul]
    at hsum
  have hcard : Fintype.card (RandomSource b k) = 2 ^ (b * k) := by
    rw [Fintype.card_fun, Fintype.card_fin, Fintype.card_fin, pow_mul]
  rw [hcard] at hsum
  have h3 : (3 : Nat) ∣ 2 ^ (b * k) := by
    refine ⟨2 * entryCount b k engine demoRoster dave
      (eligiblePool demoRoster dave), ?_⟩
    omega
  have h32 : (3 : Nat) ∣ 2 := Nat.Prime.dvd_of_dvd_pow Nat.prime_three h3
  omega

/-- C7 amended.  The pool order is randomized exactly once at session
entry: `availableCards` is produced by a single comparator sort of the
eligible pool, and for every admissible sort engine the result is a
permutation of the eligible pool — same length, same members — though
(by `entry_sort_not_uniform`) not a uniformly distributed one. -/
theorem entry_randomized_once :
    ∀ (b k : Nat)
      (engine : RandomSource b k → List Participant → List Participant),
      SortModel b k engine →
      ∀ (x : RandomSource b k) (roster : List Participant)
        (user : Participant) (s : Session),
        (handleLogin b k engine x roster user s).availableCards =
          engine x (eligiblePool roster user) ∧
        ((handleLogin b k engine x roster user s).availableCards).Perm
          (eligiblePool roster user) ∧
        ((handleLogin b k engine x roster user s).availableCards).length =
          (eligiblePool roster user).length := by
  intro b k engine hsort x roster user s
  exact ⟨rfl, hsort x (eligiblePool roster user),
    (hsort x (eligiblePool roster user)).length_eq⟩

/-- C7 witness: the identity engine (no randomness consumed) is an
admissible sort; at entry with it, Dave's cards are a permutation of his
eligible pool. -/
theorem entry_randomized_once_witness :
    ((handleLogin 0 0 identityEngine noRandomness demoRoster dave
        initialSession).availableCards).Perm
      (eligiblePool demoRoster dave) :=
  (entry_randomized_once 0 0 identityEngine (fun _ l => List.Perm.refl l)
    noRandomness demoRoster dave initialSession).2.1
